import Mathlib

/-!
Verification of the chiefr ownership-resolution engine (chiefr.go).

The Go source is shallowly embedded: each function below is a direct
translation of the function of the same name in chiefr.go, with external
collaborators (the Go regexp engine, net/url parsing, strconv.Atoi and the
GitHub client) threaded as explicit parameters or modelled where the spec
describes their contract.  Go maps (`ProjectSegments`) are embedded as
association lists; the list order stands for one possible (unspecified) Go
map iteration order, so universally quantified theorems cover every
iteration order the Go runtime may choose.
-/

namespace Chiefr

/-- Result of one call `regexp.MatchString pattern text` (Go standard
library, external to the repository): `none` models a pattern that fails to
compile (Go then returns `false` together with a non-nil error, so the pair
`(match, err)` carries exactly this much information), `some b` models a
successful compilation with match result `b`.  `MatchString` performs an
unanchored search.  The engine is deterministic, hence a function. -/
abbrev Matcher := String → String → Option Bool

/-- chiefr.go lines 29-56: a project segment and its members and resources.
Field defaults mirror Go zero values. -/
structure ProjectSegment where
  Name : String := ""
  Repository : String := ""
  Chat : String := ""
  MailList : String := ""
  IssueTracker : String := ""
  Chiefs : List String := []
  Reviewers : List String := []
  FilePatterns : List String := []
  ContentPatterns : List String := []
  FileExcludePatterns : List String := []
  ContentExcludePatterns : List String := []
  Priority : Int := 0
  Topics : List String := []
deriving DecidableEq, Inhabited

/-- chiefr.go line 58: `type ProjectSegments map[string]*ProjectSegment`,
embedded as an association list (see the header note on iteration order). -/
abbrev ProjectSegments := List (String × ProjectSegment)

/-- chiefr.go lines 60-62. -/
structure Config where
  Segments : ProjectSegments
deriving DecidableEq

/-- go-git `diff.Operation`: chunk.Type() is 0: Equal, 1: Add, 2: Delete
(comment at chiefr.go line 350). -/
inductive ChunkType where
  | equal
  | add
  | delete
deriving DecidableEq

/-- One diff chunk of a go-git FilePatch: a tag and its text content. -/
structure Chunk where
  type : ChunkType
  content : String
deriving DecidableEq

/-- A go-git `diff.FilePatch`, reduced to what chiefr reads from it:
`p.Files()` (each file represented by its path, `none` for the nil side)
and `p.Chunks()` in order.  The diff producer never yields both sides
`none`. -/
structure FilePatch where
  fromFile : Option String
  toFile : Option String
  chunks : List Chunk
deriving DecidableEq

/-- Go `strings.HasPrefix u pre` (byte-wise prefix; on valid UTF-8 this
agrees with character-wise prefix). -/
def goHasPre (u pre : String) : Bool :=
  pre.data.isPrefixOf u.data

/-- Helper for `goSplit`, structurally recursive over the remaining
characters; `acc` holds the current field reversed. -/
def goSplitAux (sep : Char) : List Char → List Char → List String
  | [], acc => [String.mk acc.reverse]
  | c :: rest, acc =>
    if c == sep then String.mk acc.reverse :: goSplitAux sep rest []
    else goSplitAux sep rest (c :: acc)

/-- Go `strings.Split s sep` for a one-character separator (chiefr only
splits on "/").  `Split "" "/" = [""]`, and a leading separator yields a
leading empty field, as in Go. -/
def goSplit (s : String) (sep : Char) : List String :=
  goSplitAux sep s.data []

/-- chiefr.go lines 413-424: append `s` to `arr` unless already present. -/
def appendNew (arr : List String) (s : String) : List String :=
  if arr.contains s then arr else arr ++ [s]

/-- The exclusion loop shared by chiefr.go lines 329-334 and 361-366:
`match, err := regexp.MatchString(p, text)`; excluded as soon as
`match && err == nil` for some pattern `p`. -/
def excludedBy (m : Matcher) (pats : List String) (text : String) : Bool :=
  pats.any (fun p => (m p text).getD false && (m p text).isSome)

/-- The include/exclude pattern loop shared by `IsFileNameMatch`
(chiefr.go lines 324-338) and the content half of `IsConcerned` (lines
356-370): skip an include pattern when `!match || err != nil`, otherwise
accept unless some exclude pattern fires. -/
def patternLoop (m : Matcher) (excl : List String) (text : String) :
    List String → Bool
  | [] => false
  | p :: rest =>
    if !(m p text).getD false || (m p text).isNone then
      patternLoop m excl text rest
    else if excludedBy m excl text then
      patternLoop m excl text rest
    else
      true

/-- chiefr.go lines 323-340: `ProjectSegment.IsFileNameMatch`. -/
def ProjectSegment.IsFileNameMatch (m : Matcher) (s : ProjectSegment)
    (path : String) : Bool :=
  patternLoop m s.FileExcludePatterns path s.FilePatterns

/-- chiefr.go lines 348-354: the buffer accumulating every chunk's content
(equal, added and deleted alike) in chunk order. -/
def diffContent (p : FilePatch) : String :=
  p.chunks.foldl (fun buffer chunk => buffer ++ chunk.content) ""

/-- chiefr.go lines 342-372: `ProjectSegment.IsConcerned`. -/
def ProjectSegment.IsConcerned (m : Matcher) (s : ProjectSegment)
    (p : FilePatch) (path : String) : Bool :=
  if s.IsFileNameMatch m path then true
  else patternLoop m s.ContentExcludePatterns (diffContent p) s.ContentPatterns

/-- chiefr.go line 393: `fmt.Sprintf("(?m).*%s.*", p)`. -/
def wrapContentPattern (p : String) : String :=
  "(?m).*" ++ p ++ ".*"

/-- Configuration loading error of `initMaintainers` (chiefr.go line 390):
section with no `Chiefs` property. -/
inductive ConfigError where
  | missingChiefs (sectionName : String)
deriving DecidableEq

/-- chiefr.go lines 374-398: `initMaintainers`, given the sections already
mapped to records by the external ini loader (name, mapped segment).  The
`DEFAULT` section is skipped, a section with no chiefs aborts loading, and
every `ContentPatterns` entry is wrapped by `wrapContentPattern`. -/
def initMaintainers : List (String × ProjectSegment) → Except ConfigError Config
  | [] => .ok ⟨[]⟩
  | (n, ps) :: rest =>
    if n == "DEFAULT" then initMaintainers rest
    else if ps.Chiefs.isEmpty then .error (.missingChiefs n)
    else
      match initMaintainers rest with
      | .error e => .error e
      | .ok c =>
        .ok ⟨(n, { ps with
                   Name := n,
                   ContentPatterns := ps.ContentPatterns.map wrapContentPattern }) ::
             c.Segments⟩

/-- chiefr.go lines 562-567: the effective path of a file patch — the `to`
side, or the `from` side for a pure deletion (`to == nil`).  The diff
producer never yields both sides nil, so the final `getD ""` is dead. -/
def effectivePath (p : FilePatch) : String :=
  match p.toFile with
  | some t => t
  | none => p.fromFile.getD ""

/-- Go map assignment `relatedSegments[sName] = s` (chiefr.go line 571) on
the association-list embedding: overwrite the binding when the key is
present, otherwise append it. -/
def mapInsert (segs : ProjectSegments) (k : String) (v : ProjectSegment) :
    ProjectSegments :=
  if segs.any (fun kv => kv.1 == k) then
    segs.map (fun kv => if kv.1 == k then (k, v) else kv)
  else
    segs ++ [(k, v)]

/-- chiefr.go lines 569-573: the inner loop of `getPatchInfo` — record every
configured segment concerned by patch `p`. -/
def segmentScan (m : Matcher) (cSegs : ProjectSegments) (p : FilePatch)
    (path : String) (acc : ProjectSegments) : ProjectSegments :=
  cSegs.foldl
    (fun segs kv =>
      if kv.2.IsConcerned m p path then mapInsert segs kv.1 kv.2 else segs)
    acc

/-- chiefr.go lines 561-574: the body of `getPatchInfo`'s loop for one file
patch — record its effective path, then scan all configured segments. -/
def patchStep (m : Matcher) (c : Config)
    (acc : ProjectSegments × List String) (p : FilePatch) :
    ProjectSegments × List String :=
  (segmentScan m c.Segments p (effectivePath p) acc.1,
   appendNew acc.2 (effectivePath p))

/-- chiefr.go lines 538-576: `getPatchInfo`, given the file patches the
external VCS adapter produced for the revision range.  Returns the resolved
segments and the affected paths. -/
def getPatchInfo (m : Matcher) (c : Config) (patches : List FilePatch) :
    ProjectSegments × List String :=
  patches.foldl (patchStep m c) ([], [])

/-- chiefr.go lines 189-191: `orderedSegmentList.Less i j` is
`Priority i > Priority j`, and `sort.Sort` orders by it.  Go's `sort.Sort`
is an unstable comparison sort; we model it with `mergeSort` under the same
comparator — every theorem below relies only on properties shared by all
sorts for this comparator (the head is a maximal-priority element). -/
def sortSegments (segs : List ProjectSegment) : List ProjectSegment :=
  segs.mergeSort (fun a b => decide (b.Priority ≤ a.Priority))

/-- User-facing errors of `submit` (chiefr.go lines 507-512). -/
inductive SubmitError where
  | noFilesToSubmit
  | noMatchingSegments
deriving DecidableEq

/-- chiefr.go lines 502-536: `submit`, from the point where `getPatchInfo`
has produced `(segments, files)`: the two user-facing failures, then the
affected-path listing and the priority-ordered, first-occurrence-deduplicated
repository listing. -/
def submit (m : Matcher) (c : Config) (patches : List FilePatch) :
    Except SubmitError (List String × List String) :=
  let res := getPatchInfo m c patches
  if res.2.length == 0 then .error .noFilesToSubmit
  else if res.1.length == 0 then .error .noMatchingSegments
  else
    let os := sortSegments (res.1.map Prod.snd)
    .ok (res.2, (os.map (fun s => s.Repository)).foldl appendNew [])

/-- The state threaded through the segment loop of `HandlePullRequest`
(chiefr.go lines 105-119): the canonical repository found so far and the
accumulated topics and chiefs. -/
structure PRLoopState where
  repoURL : String
  prTopics : List String
  prChiefs : List String
deriving DecidableEq

/-- chiefr.go lines 109-119: one iteration of the segment loop. -/
def segmentStep (u : String) (st : PRLoopState) (s : ProjectSegment) :
    PRLoopState :=
  { repoURL :=
      if st.repoURL == "" && goHasPre u s.Repository then s.Repository
      else st.repoURL,
    prTopics := s.Topics.foldl appendNew st.prTopics,
    prChiefs := s.Chiefs.foldl appendNew st.prChiefs }

/-- chiefr.go lines 105-119: the whole segment loop, over the segments in
one (unspecified) Go map iteration order. -/
def segmentLoop (u : String) (segs : List ProjectSegment) : PRLoopState :=
  segs.foldl (segmentStep u) ⟨"", [], []⟩

/-- One remote GitHub mutation issued by `HandlePullRequest`, with the
arguments chiefr passes (chiefr.go lines 148-156, 161-169, 176, 180). -/
inductive TrackerCall where
  | createComment (user repo : String) (prNum : Int) (body : String)
  | editState (user repo : String) (prNum : Int) (state : String)
  | addLabels (user repo : String) (prNum : Int) (labels : List String)
  | addAssignees (user repo : String) (prNum : Int) (assignees : List String)
deriving DecidableEq

/-- The error cases of `HandlePullRequest`, one per `return` of an error in
chiefr.go lines 90-185, in source order. -/
inductive GhError where
  | noMatchingSegments
  | parseURLFailed
  | chiefsNotFound
  | invalidPullRequestURL
  | noRepositoryFound
  | createCommentFailed
  | closePullRequestFailed
  | addLabelsFailed
  | addAssigneesFailed
deriving DecidableEq

/-- chiefr.go lines 144-147: the redirect comment body posted before closing
an unowned pull request, naming repository `r` of `os[0]`. -/
def unownedComment (r : String) : String :=
  "Hello!\nThis repository is not responsible for the changes you submitted. Submit your patch to " ++ r

/-- chiefr.go lines 90-185: `GitHubManager.HandlePullRequest`.  External
collaborators are parameters: `parsePath` models `url.Parse` restricted to
what the function reads from it (`URL.Path`; `none` is a parse error),
`atoi` models `strconv.Atoi`, and `client b = true` models a GitHub API call
`b` that returns no error.  The result is the ordered list of remote calls
attempted and the outcome; a failing call aborts the sequence exactly as the
Go `return` does. -/
def handlePullRequest (parsePath : String → Option String)
    (atoi : String → Option Int) (client : TrackerCall → Bool)
    (u : String) (segments : ProjectSegments) (close : Bool) :
    List TrackerCall × Except GhError Unit :=
  if segments.length == 0 then ([], .error .noMatchingSegments)
  else
    let os := sortSegments (segments.map Prod.snd)
    match parsePath u with
    | none => ([], .error .parseURLFailed)
    | some path =>
      let st := segmentLoop u (segments.map Prod.snd)
      if st.prChiefs.length == 0 then ([], .error .chiefsNotFound)
      else
        let pathParts := goSplit path '/'
        if pathParts.length != 5 || pathParts.getD 3 "" != "pull" ||
            pathParts.getD 1 "" == "" || pathParts.getD 2 "" == "" then
          ([], .error .invalidPullRequestURL)
        else
          let user := pathParts.getD 1 ""
          let repo := pathParts.getD 2 ""
          match atoi (pathParts.getD 4 "") with
          | none => ([], .error .invalidPullRequestURL)
          | some prNum =>
            if st.repoURL == "" then
              if !close then ([], .error .noRepositoryFound)
              else
                let commentCall := TrackerCall.createComment user repo prNum
                  (unownedComment (os.headD {}).Repository)
                if client commentCall then
                  let closeCall := TrackerCall.editState user repo prNum "closed"
                  if client closeCall then ([commentCall, closeCall], .ok ())
                  else ([commentCall, closeCall], .error .closePullRequestFailed)
                else ([commentCall], .error .createCommentFailed)
            else
              let labelsCall := TrackerCall.addLabels user repo prNum st.prTopics
              if client labelsCall then
                let assigneesCall :=
                  TrackerCall.addAssignees user repo prNum st.prChiefs
                if client assigneesCall then
                  ([labelsCall, assigneesCall], .ok ())
                else ([labelsCall, assigneesCall], .error .addAssigneesFailed)
              else ([labelsCall], .error .addLabelsFailed)

/-- Whether the character list `needle` occurs contiguously inside `hay`. -/
def occursIn (needle : List Char) : List Char → Bool
  | [] => needle.isEmpty
  | c :: rest => needle.isPrefixOf (c :: rest) || occursIn needle rest

/-- Modelled from the spec: the Go regexp engine's verdict on a content
pattern that `initMaintainers` wrapped as `(?m).*P.*` with `P` a literal
(no regex metacharacters).  Per the spec, such a pattern "matches if the
pattern occurs on any line, case-sensitive, unanchored".  The engine itself
is the external Go standard library and is not part of the repository;
patterns of any other shape are outside this model (`none`). -/
def specWrappedMatcher : Matcher := fun pat text =>
  let cs := pat.data
  if ("(?m).*".data.isPrefixOf cs && ".*".data.isSuffixOf (cs.drop 6)) then
    let lit := ((cs.drop 6).dropLast).dropLast
    some ((goSplit text '\n').any (fun line => occursIn lit line.data))
  else none

/-! Helper lemmas. -/

/-- The Go include-pattern guard `!match || err != nil` on a
`regexp.MatchString` result: it rejects exactly when the result is not a
clean `true`. -/
lemma matchCond (o : Option Bool) : (!o.getD false || o.isNone) = !(o == some true) := by
  cases o with
  | none => rfl
  | some b => cases b <;> rfl

/-- The Go exclude-pattern guard `match && err == nil`: it fires exactly on
a clean `true`. -/
lemma acceptCond (o : Option Bool) : (o.getD false && o.isSome) = (o == some true) := by
  cases o with
  | none => rfl
  | some b => cases b <;> rfl

lemma bool_eq_of_iff {a b : Bool} (h : a = true ↔ b = true) : a = b := by
  cases a <;> cases b <;> simp_all

lemma excludedBy_eq_true (m : Matcher) (pats : List String) (text : String) :
    excludedBy m pats text = true ↔ ∃ p ∈ pats, m p text = some true := by
  simp only [excludedBy, acceptCond, List.any_eq_true, beq_iff_eq]

lemma patternLoop_eq_true (m : Matcher) (excl : List String) (text : String) :
    ∀ pats, (patternLoop m excl text pats = true ↔
      ((∃ p ∈ pats, m p text = some true) ∧ excludedBy m excl text = false))
  | [] => by simp [patternLoop]
  | p :: rest => by
    rw [patternLoop, matchCond]
    cases h : m p text with
    | none => simp [h, patternLoop_eq_true m excl text rest]
    | some b =>
      cases b with
      | false => simp [h, patternLoop_eq_true m excl text rest]
      | true =>
        cases hexcl : excludedBy m excl text with
        | false => simp [h, hexcl]
        | true => simp [h, hexcl, patternLoop_eq_true m excl text rest]

lemma isFileNameMatch_eq_true (m : Matcher) (s : ProjectSegment) (path : String) :
    s.IsFileNameMatch m path = true ↔
      ((∃ fp ∈ s.FilePatterns, m fp path = some true) ∧
       ∀ fep ∈ s.FileExcludePatterns, ¬m fep path = some true) := by
  rw [ProjectSegment.IsFileNameMatch, patternLoop_eq_true]
  have h : excludedBy m s.FileExcludePatterns path = false ↔
      ∀ fep ∈ s.FileExcludePatterns, ¬m fep path = some true := by
    rw [← Bool.not_eq_true, excludedBy_eq_true]
    push_neg
    rfl
  rw [h]

lemma mem_appendNew {arr : List String} {s a : String} :
    a ∈ appendNew arr s ↔ a ∈ arr ∨ a = s := by
  unfold appendNew
  by_cases h : arr.contains s
  · rw [if_pos h]
    have hs : s ∈ arr := by simpa [List.elem_iff] using h
    constructor
    · exact Or.inl
    · rintro (ha | rfl)
      · exact ha
      · exact hs
  · rw [if_neg h]
    simp

lemma nodup_appendNew {arr : List String} {s : String} (h : arr.Nodup) :
    (appendNew arr s).Nodup := by
  unfold appendNew
  by_cases hc : arr.contains s
  · rwa [if_pos hc]
  · rw [if_neg hc]
    refine List.Nodup.append h (List.nodup_singleton s) ?_
    intro a ha hs
    rw [List.mem_singleton] at hs
    subst hs
    exact hc (by simpa [List.elem_iff] using ha)

lemma mem_foldl_appendNew :
    ∀ (l : List String) (init : List String) (a : String),
      a ∈ l.foldl appendNew init ↔ a ∈ init ∨ a ∈ l
  | [], init, a => by simp
  | x :: rest, init, a => by
    rw [List.foldl_cons, mem_foldl_appendNew rest (appendNew init x) a, mem_appendNew,
      List.mem_cons, or_assoc]

/-- Specification-side description of the repository-targeting decision,
for comparison with the loop translated from the source: the `Repository`
of the first segment in iteration order whose non-empty `Repository` is a
string prefix of `u`, or `""` when there is none. -/
def firstOwnedRepo (u : String) (segs : List ProjectSegment) : String :=
  ((segs.find? (fun s => !(s.Repository == "") && goHasPre u s.Repository)).map
    (fun s => s.Repository)).getD ""

lemma foldl_segmentStep_repoURL (u : String) :
    ∀ (segs : List ProjectSegment) (st : PRLoopState),
      (segs.foldl (segmentStep u) st).repoURL =
        if st.repoURL = "" then firstOwnedRepo u segs else st.repoURL
  | [], st => by
    simp only [List.foldl_nil, firstOwnedRepo, List.find?_nil]
    split <;> simp_all
  | s :: rest, st => by
    rw [List.foldl_cons, foldl_segmentStep_repoURL u rest]
    by_cases h0 : st.repoURL = ""
    · by_cases hpre : goHasPre u s.Repository
      · by_cases hrep : s.Repository = ""
        · simp [segmentStep, firstOwnedRepo, h0, hpre, hrep]
        · simp [segmentStep, firstOwnedRepo, h0, hpre, hrep]
      · simp [segmentStep, firstOwnedRepo, h0, hpre]
    · simp [segmentStep, h0]

lemma segmentLoop_repoURL (u : String) (segs : List ProjectSegment) :
    (segmentLoop u segs).repoURL = firstOwnedRepo u segs := by
  rw [segmentLoop, foldl_segmentStep_repoURL]
  rfl

lemma firstOwnedRepo_filter (u : String) :
    ∀ segs : List ProjectSegment,
      firstOwnedRepo u (segs.filter (fun s => !(s.Repository == ""))) =
        firstOwnedRepo u segs
  | [] => rfl
  | s :: rest => by
    rw [List.filter_cons]
    by_cases hrep : s.Repository = ""
    · rw [if_neg (by simp [hrep])]
      rw [firstOwnedRepo_filter u rest]
      unfold firstOwnedRepo
      rw [List.find?_cons_of_neg _ (by simp [hrep])]
    · rw [if_pos (by simp [hrep])]
      unfold firstOwnedRepo
      by_cases hpre : goHasPre u s.Repository = true
      · rw [List.find?_cons_of_pos _ (by simp [hrep, hpre]),
          List.find?_cons_of_pos _ (by simp [hrep, hpre])]
      · rw [List.find?_cons_of_neg _ (by simp [hpre]),
          List.find?_cons_of_neg _ (by simp [hpre])]
        have h := firstOwnedRepo_filter u rest
        unfold firstOwnedRepo at h
        exact h

lemma firstOwnedRepo_ne_iff (u : String) :
    ∀ segs : List ProjectSegment,
      (¬firstOwnedRepo u segs = "" ↔
        ∃ s ∈ segs, ¬s.Repository = "" ∧ goHasPre u s.Repository = true)
  | [] => by simp [firstOwnedRepo]
  | s :: rest => by
    by_cases hcond : (!(s.Repository == "") && goHasPre u s.Repository) = true
    · have hrep : ¬s.Repository = "" := by
        have := hcond
        simp only [Bool.and_eq_true, Bool.not_eq_true', beq_eq_false_iff_ne, ne_eq] at this
        exact this.1
      have hpre : goHasPre u s.Repository = true := by
        have := hcond
        simp only [Bool.and_eq_true] at this
        exact this.2
      rw [firstOwnedRepo]
      simp only [List.find?_cons, hcond]
      simp [hrep, hpre]
    · rw [firstOwnedRepo, List.find?_cons]
      rw [Bool.not_eq_true] at hcond
      rw [hcond, ← firstOwnedRepo, firstOwnedRepo_ne_iff u rest]
      simp only [Bool.and_eq_false_iff, Bool.not_eq_false', beq_iff_eq,
        Bool.not_eq_true] at hcond
      constructor
      · rintro ⟨t, ht, h1, h2⟩
        exact ⟨t, List.mem_cons_of_mem s ht, h1, h2⟩
      · rintro ⟨t, ht, h1, h2⟩
        rcases List.mem_cons.mp ht with rfl | htr
        · rcases hcond with hc | hc
          · exact absurd hc h1
          · rw [h2] at hc
            cases hc
        · exact ⟨t, htr, h1, h2⟩

/-- C1 counterexample input: two resolved segments whose repositories both
prefix the pull-request URL; the second has strictly higher priority but
comes later in the map iteration order. -/
def csLowSeg : ProjectSegment :=
  { Name := "low", Repository := "https://x/a", Chiefs := ["alice"], Priority := 0 }

/-- C1 counterexample input, the higher-priority segment. -/
def csHighSeg : ProjectSegment :=
  { Name := "high", Repository := "https://x/ab", Chiefs := ["bob"], Priority := 5 }

/-- C1 counterexample: on the URL `https://x/ab/pull/1`, both segments'
repositories are prefixes and `csHighSeg` has the strictly highest
priority, yet the loop of `HandlePullRequest` (chiefr.go lines 108-119),
which ranges over the Go map and not over the priority-sorted list, fixes
`repoURL` to the repository of whichever prefix-matching segment the map
yields first — here the lower-priority one — refuting the claim that the
descending-priority order determines the canonical repository. -/
theorem repoURL_priority_counterexample :
    goHasPre "https://x/ab/pull/1" csLowSeg.Repository = true ∧
    goHasPre "https://x/ab/pull/1" csHighSeg.Repository = true ∧
    csLowSeg.Priority < csHighSeg.Priority ∧
    (segmentLoop "https://x/ab/pull/1" [csLowSeg, csHighSeg]).repoURL =
      csLowSeg.Repository ∧
    ¬(segmentLoop "https://x/ab/pull/1" [csLowSeg, csHighSeg]).repoURL =
      csHighSeg.Repository := by
  refine ⟨by decide, by decide, by decide, by decide, by decide⟩

/-- C1 (amended): for every pull-request URL and resolved segment list
(taken in the iteration order the Go map happens to produce), the
repository treated as canonical by `HandlePullRequest` is that of the first
segment in that iteration order whose non-empty `Repository` is a string
prefix of the URL — the descending-priority order plays no role in this
decision. -/
theorem repoURL_first_in_iteration_order (u : String)
    (segs : List ProjectSegment) :
    (segmentLoop u segs).repoURL =
      ((segs.find? (fun s => !(s.Repository == "") && goHasPre u s.Repository)).map
        (fun s => s.Repository)).getD "" :=
  segmentLoop_repoURL u segs

/-- C10: the targeting decision of `HandlePullRequest` reports a match
(`repoURL` non-empty) iff some resolved segment has a non-empty
`Repository` that prefixes the URL; a segment with an empty `Repository`
neither establishes a match (the assignment writes the empty string back)
nor blocks a later segment from matching — dropping all empty-repository
segments leaves the decision unchanged. -/
theorem repoURL_nonempty_iff (u : String) (segs : List ProjectSegment) :
    (¬(segmentLoop u segs).repoURL = "" ↔
      ∃ s ∈ segs, ¬s.Repository = "" ∧ goHasPre u s.Repository = true) ∧
    (segmentLoop u (segs.filter (fun s => !(s.Repository == "")))).repoURL =
      (segmentLoop u segs).repoURL := by
  constructor
  · rw [segmentLoop_repoURL]
    exact firstOwnedRepo_ne_iff u segs
  · rw [segmentLoop_repoURL, segmentLoop_repoURL]
    exact firstOwnedRepo_filter u segs

lemma patternLoop_spec (m : Matcher) (excl : List String) (text : String)
    (pats : List String) :
    patternLoop m excl text pats = true ↔
      ((∃ p ∈ pats, m p text = some true) ∧ ∀ e ∈ excl, ¬m e text = some true) := by
  rw [patternLoop_eq_true]
  have h : excludedBy m excl text = false ↔ ∀ e ∈ excl, ¬m e text = some true := by
    rw [← Bool.not_eq_true, excludedBy_eq_true]
    push_neg
    rfl
  rw [h]

lemma excludedBy_congr_mem {m : Matcher} {exc1 exc2 : List String} {text : String}
    (h : ∀ p, p ∈ exc1 ↔ p ∈ exc2) :
    excludedBy m exc1 text = excludedBy m exc2 text := by
  apply bool_eq_of_iff
  rw [excludedBy_eq_true, excludedBy_eq_true]
  constructor
  · rintro ⟨p, hp, hm⟩
    exact ⟨p, (h p).mp hp, hm⟩
  · rintro ⟨p, hp, hm⟩
    exact ⟨p, (h p).mpr hp, hm⟩

lemma patternLoop_congr_excl {m : Matcher} {exc1 exc2 : List String} {text : String}
    (h : excludedBy m exc1 text = excludedBy m exc2 text) :
    ∀ pats, patternLoop m exc1 text pats = patternLoop m exc2 text pats
  | [] => rfl
  | p :: rest => by
    rw [patternLoop, patternLoop, h, patternLoop_congr_excl h rest]

/-- C2: for every matcher, segment whose patterns all compile, and path,
`IsFileNameMatch` is true iff some `FilePatterns` entry matches the path
(a clean `some true` from the unanchored-search engine) and no
`FileExcludePatterns` entry matches it; and the result is invariant under
any permutation of the exclude-pattern list. -/
theorem isFileNameMatch_spec (m : Matcher) (s : ProjectSegment) (path : String)
    (hcompile : ∀ p ∈ s.FilePatterns ++ s.FileExcludePatterns,
      (m p path).isSome = true) :
    (s.IsFileNameMatch m path = true ↔
      ((∃ fp ∈ s.FilePatterns, m fp path = some true) ∧
       ∀ fep ∈ s.FileExcludePatterns, ¬m fep path = some true)) ∧
    (∀ exc : List String, exc.Perm s.FileExcludePatterns →
      ProjectSegment.IsFileNameMatch m { s with FileExcludePatterns := exc } path =
        s.IsFileNameMatch m path) := by
  refine ⟨isFileNameMatch_eq_true m s path, fun exc hperm => ?_⟩
  show patternLoop m exc path s.FilePatterns =
    patternLoop m s.FileExcludePatterns path s.FilePatterns
  exact patternLoop_congr_excl (excludedBy_congr_mem fun p => hperm.mem_iff) _

/-- C2 witness input: matcher with one matching include pattern and one
non-matching exclude pattern. -/
def c2Matcher : Matcher := fun pat _ =>
  if pat == "inc" then some true else if pat == "exc" then some false else none

/-- C2 witness input segment. -/
def c2Seg : ProjectSegment :=
  { Name := "w2", Chiefs := ["a"], FilePatterns := ["inc"],
    FileExcludePatterns := ["exc"] }

/-- C2 witness: `isFileNameMatch_spec` applied at a concrete compiling
configuration. -/
theorem isFileNameMatch_spec_witness :
    (∀ p ∈ c2Seg.FilePatterns ++ c2Seg.FileExcludePatterns,
      (c2Matcher p "f.go").isSome = true) ∧
    ((c2Seg.IsFileNameMatch c2Matcher "f.go" = true ↔
      ((∃ fp ∈ c2Seg.FilePatterns, c2Matcher fp "f.go" = some true) ∧
       ∀ fep ∈ c2Seg.FileExcludePatterns, ¬c2Matcher fep "f.go" = some true)) ∧
    (∀ exc : List String, exc.Perm c2Seg.FileExcludePatterns →
      ProjectSegment.IsFileNameMatch c2Matcher
          { c2Seg with FileExcludePatterns := exc } "f.go" =
        c2Seg.IsFileNameMatch c2Matcher "f.go")) :=
  ⟨by decide, isFileNameMatch_spec c2Matcher c2Seg "f.go" (by decide)⟩

lemma excludedBy_splice {m : Matcher} {bad text : String}
    (hbad : m bad text = none) (l1 l2 : List String) :
    excludedBy m (l1 ++ bad :: l2) text = excludedBy m (l1 ++ l2) text := by
  apply bool_eq_of_iff
  rw [excludedBy_eq_true, excludedBy_eq_true]
  constructor
  · rintro ⟨p, hp, hm⟩
    rcases List.mem_append.mp hp with h1 | h1
    · exact ⟨p, List.mem_append.mpr (Or.inl h1), hm⟩
    · rcases List.mem_cons.mp h1 with rfl | h2
      · rw [hbad] at hm
        cases hm
      · exact ⟨p, List.mem_append.mpr (Or.inr h2), hm⟩
  · rintro ⟨p, hp, hm⟩
    rcases List.mem_append.mp hp with h1 | h1
    · exact ⟨p, List.mem_append.mpr (Or.inl h1), hm⟩
    · exact ⟨p, List.mem_append.mpr (Or.inr (List.mem_cons_of_mem bad h1)), hm⟩

lemma patternLoop_splice {m : Matcher} {excl : List String} {bad text : String}
    (hbad : m bad text = none) (l2 : List String) :
    ∀ l1, patternLoop m excl text (l1 ++ bad :: l2) =
      patternLoop m excl text (l1 ++ l2)
  | [] => by
    rw [List.nil_append, List.nil_append, patternLoop]
    simp [hbad]
  | p :: rest => by
    rw [List.cons_append, List.cons_append, patternLoop, patternLoop,
      patternLoop_splice hbad l2 rest]

/-- C3: a pattern the regex engine rejects (modelled by `m bad · = none`,
Go's `MatchString` returning `false` with a non-nil error) is inert: spliced
anywhere into `FilePatterns`, `FileExcludePatterns`, `ContentPatterns` or
`ContentExcludePatterns` it leaves `IsFileNameMatch` and `IsConcerned`
unchanged — in particular a malformed exclude pattern never excludes — and
both functions stay total, evaluation simply continuing with the remaining
patterns. -/
theorem malformed_pattern_inert (m : Matcher) (bad : String)
    (hbad : ∀ text, m bad text = none) :
    ∀ (s : ProjectSegment) (p : FilePatch) (path : String) (l1 l2 : List String),
      (ProjectSegment.IsFileNameMatch m { s with FilePatterns := l1 ++ bad :: l2 } path =
        ProjectSegment.IsFileNameMatch m { s with FilePatterns := l1 ++ l2 } path) ∧
      (ProjectSegment.IsFileNameMatch m { s with FileExcludePatterns := l1 ++ bad :: l2 } path =
        ProjectSegment.IsFileNameMatch m { s with FileExcludePatterns := l1 ++ l2 } path) ∧
      (ProjectSegment.IsConcerned m { s with ContentPatterns := l1 ++ bad :: l2 } p path =
        ProjectSegment.IsConcerned m { s with ContentPatterns := l1 ++ l2 } p path) ∧
      (ProjectSegment.IsConcerned m { s with ContentExcludePatterns := l1 ++ bad :: l2 } p path =
        ProjectSegment.IsConcerned m { s with ContentExcludePatterns := l1 ++ l2 } p path) := by
  intro s p path l1 l2
  refine ⟨?_, ?_, ?_, ?_⟩
  · show patternLoop m s.FileExcludePatterns path (l1 ++ bad :: l2) =
      patternLoop m s.FileExcludePatterns path (l1 ++ l2)
    exact patternLoop_splice (hbad path) l2 l1
  · show patternLoop m (l1 ++ bad :: l2) path s.FilePatterns =
      patternLoop m (l1 ++ l2) path s.FilePatterns
    exact patternLoop_congr_excl (excludedBy_splice (hbad path) l1 l2) _
  · show (if s.IsFileNameMatch m path then true
        else patternLoop m s.ContentExcludePatterns (diffContent p) (l1 ++ bad :: l2)) =
      (if s.IsFileNameMatch m path then true
        else patternLoop m s.ContentExcludePatterns (diffContent p) (l1 ++ l2))
    by_cases hf : s.IsFileNameMatch m path
    · rw [if_pos hf, if_pos hf]
    · rw [if_neg hf, if_neg hf]
      exact patternLoop_splice (hbad (diffContent p)) l2 l1
  · show (if s.IsFileNameMatch m path then true
        else patternLoop m (l1 ++ bad :: l2) (diffContent p) s.ContentPatterns) =
      (if s.IsFileNameMatch m path then true
        else patternLoop m (l1 ++ l2) (diffContent p) s.ContentPatterns)
    by_cases hf : s.IsFileNameMatch m path
    · rw [if_pos hf, if_pos hf]
    · rw [if_neg hf, if_neg hf]
      exact patternLoop_congr_excl (excludedBy_splice (hbad (diffContent p)) l1 l2) _

/-- C3 witness input: matcher for which the pattern "bad" never compiles
and every other pattern matches exactly the text equal to it. -/
def c3Matcher : Matcher := fun pat text =>
  if pat == "bad" then none else some (pat == text)

/-- C3 witness input segment. -/
def c3Seg : ProjectSegment :=
  { Name := "w3", Chiefs := ["a"], FilePatterns := ["f.go"],
    ContentPatterns := ["hit"] }

/-- C3 witness input patch. -/
def c3Patch : FilePatch :=
  { fromFile := none, toFile := some "f.go", chunks := [⟨ChunkType.add, "hit"⟩] }

/-- C3 witness: `malformed_pattern_inert` applied at a concrete malformed
pattern, segment, patch and splice position. -/
theorem malformed_pattern_inert_witness :
    (∀ text, c3Matcher "bad" text = none) ∧
    ((ProjectSegment.IsFileNameMatch c3Matcher
        { c3Seg with FilePatterns := ["bad", "f.go"] } "f.go" =
      ProjectSegment.IsFileNameMatch c3Matcher
        { c3Seg with FilePatterns := ["f.go"] } "f.go") ∧
    (ProjectSegment.IsFileNameMatch c3Matcher
        { c3Seg with FileExcludePatterns := ["bad", "f.go"] } "f.go" =
      ProjectSegment.IsFileNameMatch c3Matcher
        { c3Seg with FileExcludePatterns := ["f.go"] } "f.go") ∧
    (ProjectSegment.IsConcerned c3Matcher
        { c3Seg with ContentPatterns := ["bad", "f.go"] } c3Patch "f.go" =
      ProjectSegment.IsConcerned c3Matcher
        { c3Seg with ContentPatterns := ["f.go"] } c3Patch "f.go") ∧
    (ProjectSegment.IsConcerned c3Matcher
        { c3Seg with ContentExcludePatterns := ["bad", "f.go"] } c3Patch "f.go" =
      ProjectSegment.IsConcerned c3Matcher
        { c3Seg with ContentExcludePatterns := ["f.go"] } c3Patch "f.go")) :=
  ⟨fun _ => rfl,
   malformed_pattern_inert c3Matcher "bad" (fun _ => rfl) c3Seg c3Patch "f.go"
     [] ["f.go"]⟩

lemma diffContent_congr {p q : FilePatch}
    (h : p.chunks.map Chunk.content = q.chunks.map Chunk.content) :
    diffContent p = diffContent q := by
  have hp : diffContent p = (p.chunks.map Chunk.content).foldl (fun a b => a ++ b) "" :=
    (List.foldl_map Chunk.content (fun a b => a ++ b) p.chunks "").symm
  have hq : diffContent q = (q.chunks.map Chunk.content).foldl (fun a b => a ++ b) "" :=
    (List.foldl_map Chunk.content (fun a b => a ++ b) q.chunks "").symm
  rw [hp, hq, h]

/-- C4: `IsConcerned` is true whenever the filename match succeeds; content
matching is consulted only when the filename match fails, and then accepts
iff some `ContentPatterns` entry matches the concatenation of all diff
chunks' text (equal, added and deleted alike, in chunk order — only the
chunk contents matter, never the chunk types) and no
`ContentExcludePatterns` entry matches it. -/
theorem isConcerned_spec (m : Matcher) (s : ProjectSegment) :
    (∀ (p : FilePatch) (path : String),
      s.IsFileNameMatch m path = true → s.IsConcerned m p path = true) ∧
    (∀ (p : FilePatch) (path : String), s.IsFileNameMatch m path = false →
      (s.IsConcerned m p path = true ↔
        ((∃ cp ∈ s.ContentPatterns, m cp (diffContent p) = some true) ∧
         ∀ cep ∈ s.ContentExcludePatterns, ¬m cep (diffContent p) = some true))) ∧
    (∀ (p q : FilePatch) (path : String),
      p.chunks.map Chunk.content = q.chunks.map Chunk.content →
      s.IsConcerned m p path = s.IsConcerned m q path) := by
  refine ⟨?_, ?_, ?_⟩
  · intro p path h
    rw [ProjectSegment.IsConcerned, if_pos h]
  · intro p path h
    rw [ProjectSegment.IsConcerned, if_neg (by rw [h]; exact Bool.false_ne_true)]
    exact patternLoop_spec m s.ContentExcludePatterns (diffContent p) s.ContentPatterns
  · intro p q path h
    rw [ProjectSegment.IsConcerned, ProjectSegment.IsConcerned, diffContent_congr h]

/-- C4 witness input: matcher matching exactly the pattern equal to the
text. -/
def c4Matcher : Matcher := fun pat text => some (pat == text)

/-- C4 witness input segment: no file patterns, one content pattern. -/
def c4Seg : ProjectSegment :=
  { Name := "w4", Chiefs := ["a"], ContentPatterns := ["hit"] }

/-- C4 witness input patch whose chunks concatenate to "hit". -/
def c4Patch : FilePatch :=
  { fromFile := none, toFile := some "f.go",
    chunks := [⟨ChunkType.equal, "h"⟩, ⟨ChunkType.add, "it"⟩] }

/-- C4 witness input patch with the same chunk contents as `c4Patch` but
different chunk types. -/
def c4PatchRetyped : FilePatch :=
  { fromFile := none, toFile := some "f.go",
    chunks := [⟨ChunkType.delete, "h"⟩, ⟨ChunkType.equal, "it"⟩] }

/-- C4 witness: `isConcerned_spec` applied at a concrete segment and patch:
the filename match fails, the content fallback decides, and retyping the
chunks changes nothing. -/
theorem isConcerned_spec_witness :
    (c4Seg.IsFileNameMatch c4Matcher "f.go" = false) ∧
    (c4Seg.IsConcerned c4Matcher c4Patch "f.go" = true ↔
      ((∃ cp ∈ c4Seg.ContentPatterns, c4Matcher cp (diffContent c4Patch) = some true) ∧
       ∀ cep ∈ c4Seg.ContentExcludePatterns,
         ¬c4Matcher cep (diffContent c4Patch) = some true)) ∧
    (c4Patch.chunks.map Chunk.content = c4PatchRetyped.chunks.map Chunk.content) ∧
    (c4Seg.IsConcerned c4Matcher c4Patch "f.go" =
      c4Seg.IsConcerned c4Matcher c4PatchRetyped "f.go") :=
  ⟨rfl,
   (isConcerned_spec c4Matcher c4Seg).2.1 c4Patch "f.go" rfl,
   rfl,
   (isConcerned_spec c4Matcher c4Seg).2.2 c4Patch c4PatchRetyped "f.go" rfl⟩

lemma mem_keys_mapInsert {segs : ProjectSegments} {k : String}
    {v : ProjectSegment} {a : String} :
    a ∈ (mapInsert segs k v).map Prod.fst ↔ a ∈ segs.map Prod.fst ∨ a = k := by
  unfold mapInsert
  by_cases h : segs.any (fun kv => kv.1 == k) = true
  · rw [if_pos h]
    have hk : k ∈ segs.map Prod.fst := by
      rcases List.any_eq_true.mp h with ⟨kv, hkv, hbeq⟩
      rw [beq_iff_eq] at hbeq
      exact hbeq ▸ List.mem_map_of_mem Prod.fst hkv
    have hkeys : (segs.map (fun kv => if kv.1 == k then (k, v) else kv)).map Prod.fst =
        segs.map Prod.fst := by
      rw [List.map_map]
      apply List.map_congr_left
      intro kv _
      by_cases hb : kv.1 == k
      · simp only [Function.comp_apply, hb, if_true]
        exact (beq_iff_eq.mp hb).symm
      · have hne : ¬kv.1 = k := by simpa using hb
        simp [Function.comp_apply, hne]
    rw [hkeys]
    constructor
    · exact Or.inl
    · rintro (ha | rfl)
      · exact ha
      · exact hk
  · rw [if_neg h]
    simp

lemma nodup_keys_mapInsert {segs : ProjectSegments} {k : String}
    {v : ProjectSegment} (h : (segs.map Prod.fst).Nodup) :
    ((mapInsert segs k v).map Prod.fst).Nodup := by
  unfold mapInsert
  by_cases hc : segs.any (fun kv => kv.1 == k) = true
  · rw [if_pos hc]
    have hkeys : (segs.map (fun kv => if kv.1 == k then (k, v) else kv)).map Prod.fst =
        segs.map Prod.fst := by
      rw [List.map_map]
      apply List.map_congr_left
      intro kv _
      by_cases hb : kv.1 == k
      · simp only [Function.comp_apply, hb, if_true]
        exact (beq_iff_eq.mp hb).symm
      · have hne : ¬kv.1 = k := by simpa using hb
        simp [Function.comp_apply, hne]
    rw [hkeys]
    exact h
  · rw [if_neg hc]
    rw [List.map_append]
    refine List.Nodup.append h (List.nodup_singleton k) ?_
    intro a ha hs
    rw [List.map_singleton, List.mem_singleton] at hs
    subst hs
    rcases List.mem_map.mp ha with ⟨kv, hkv, hfst⟩
    exact hc (List.any_eq_true.mpr ⟨kv, hkv, beq_iff_eq.mpr hfst⟩)

lemma mem_keys_segmentScan (m : Matcher) (p : FilePatch) (path : String) :
    ∀ (cSegs : ProjectSegments) (acc : ProjectSegments) (a : String),
      a ∈ (segmentScan m cSegs p path acc).map Prod.fst ↔
        a ∈ acc.map Prod.fst ∨
          ∃ kv ∈ cSegs, kv.1 = a ∧ kv.2.IsConcerned m p path = true
  | [], acc, a => by simp [segmentScan]
  | kv :: rest, acc, a => by
    rw [segmentScan, List.foldl_cons, ← segmentScan,
      mem_keys_segmentScan m p path rest _ a]
    by_cases hc : kv.2.IsConcerned m p path = true
    · rw [if_pos hc, mem_keys_mapInsert]
      simp only [List.mem_cons]
      constructor
      · rintro ((h | rfl) | ⟨t, ht, h1, h2⟩)
        · exact Or.inl h
        · exact Or.inr ⟨kv, Or.inl rfl, rfl, hc⟩
        · exact Or.inr ⟨t, Or.inr ht, h1, h2⟩
      · rintro (h | ⟨t, ht, h1, h2⟩)
        · exact Or.inl (Or.inl h)
        · rcases ht with rfl | htr
          · exact Or.inl (Or.inr h1.symm)
          · exact Or.inr ⟨t, htr, h1, h2⟩
    · rw [if_neg hc]
      simp only [List.mem_cons]
      constructor
      · rintro (h | ⟨t, ht, h1, h2⟩)
        · exact Or.inl h
        · exact Or.inr ⟨t, Or.inr ht, h1, h2⟩
      · rintro (h | ⟨t, ht, h1, h2⟩)
        · exact Or.inl h
        · rcases ht with rfl | htr
          · exact absurd h2 hc
          · exact Or.inr ⟨t, htr, h1, h2⟩

lemma nodup_keys_segmentScan (m : Matcher) (p : FilePatch) (path : String) :
    ∀ (cSegs : ProjectSegments) (acc : ProjectSegments),
      (acc.map Prod.fst).Nodup → ((segmentScan m cSegs p path acc).map Prod.fst).Nodup
  | [], acc, h => h
  | kv :: rest, acc, h => by
    rw [segmentScan, List.foldl_cons, ← segmentScan]
    by_cases hc : kv.2.IsConcerned m p path = true
    · rw [if_pos hc]
      exact nodup_keys_segmentScan m p path rest _ (nodup_keys_mapInsert h)
    · rw [if_neg hc]
      exact nodup_keys_segmentScan m p path rest _ h

lemma mem_keys_foldl_patchStep (m : Matcher) (c : Config) :
    ∀ (patches : List FilePatch) (acc : ProjectSegments × List String) (a : String),
      a ∈ ((patches.foldl (patchStep m c) acc).1.map Prod.fst) ↔
        a ∈ acc.1.map Prod.fst ∨
          ∃ p ∈ patches, ∃ kv ∈ c.Segments, kv.1 = a ∧
            kv.2.IsConcerned m p (effectivePath p) = true
  | [], acc, a => by simp
  | p :: rest, acc, a => by
    rw [List.foldl_cons, mem_keys_foldl_patchStep m c rest _ a]
    rw [show (patchStep m c acc p).1 = segmentScan m c.Segments p (effectivePath p) acc.1
      from rfl]
    rw [mem_keys_segmentScan]
    simp only [List.mem_cons]
    constructor
    · rintro ((h | ⟨kv, hkv, h1, h2⟩) | ⟨q, hq, kv, hkv, h1, h2⟩)
      · exact Or.inl h
      · exact Or.inr ⟨p, Or.inl rfl, kv, hkv, h1, h2⟩
      · exact Or.inr ⟨q, Or.inr hq, kv, hkv, h1, h2⟩
    · rintro (h | ⟨q, hq, kv, hkv, h1, h2⟩)
      · exact Or.inl (Or.inl h)
      · rcases hq with rfl | hqr
        · exact Or.inl (Or.inr ⟨kv, hkv, h1, h2⟩)
        · exact Or.inr ⟨q, hqr, kv, hkv, h1, h2⟩

lemma mem_paths_foldl_patchStep (m : Matcher) (c : Config) :
    ∀ (patches : List FilePatch) (acc : ProjectSegments × List String) (q : String),
      q ∈ (patches.foldl (patchStep m c) acc).2 ↔
        q ∈ acc.2 ∨ ∃ p ∈ patches, effectivePath p = q
  | [], acc, q => by simp
  | p :: rest, acc, q => by
    rw [List.foldl_cons, mem_paths_foldl_patchStep m c rest _ q]
    rw [show (patchStep m c acc p).2 = appendNew acc.2 (effectivePath p) from rfl]
    rw [mem_appendNew]
    simp only [List.mem_cons]
    constructor
    · rintro ((h | h) | ⟨r, hr, he⟩)
      · exact Or.inl h
      · exact Or.inr ⟨p, Or.inl rfl, h.symm⟩
      · exact Or.inr ⟨r, Or.inr hr, he⟩
    · rintro (h | ⟨r, hr, he⟩)
      · exact Or.inl (Or.inl h)
      · rcases hr with rfl | hrr
        · exact Or.inl (Or.inr he.symm)
        · exact Or.inr ⟨r, hrr, he⟩

lemma nodup_foldl_patchStep (m : Matcher) (c : Config) :
    ∀ (patches : List FilePatch) (acc : ProjectSegments × List String),
      (acc.1.map Prod.fst).Nodup → acc.2.Nodup →
        ((patches.foldl (patchStep m c) acc).1.map Prod.fst).Nodup ∧
        (patches.foldl (patchStep m c) acc).2.Nodup
  | [], acc, h1, h2 => ⟨h1, h2⟩
  | p :: rest, acc, h1, h2 => by
    rw [List.foldl_cons]
    exact nodup_foldl_patchStep m c rest _
      (nodup_keys_segmentScan m p (effectivePath p) c.Segments acc.1 h1)
      (nodup_appendNew h2)

/-- C5: for every matcher, configuration and changeset, `getPatchInfo` is
permutation-invariant in the file-patch list — the resolved segment-name
set and the affected-path set are the same for every ordering — and both
results are duplicate-free: a segment matched by several patches appears
once, and a recurring effective path appears once. -/
theorem getPatchInfo_perm_invariant_nodup (m : Matcher) (c : Config)
    (patches : List FilePatch) :
    ((getPatchInfo m c patches).1.map Prod.fst).Nodup ∧
    (getPatchInfo m c patches).2.Nodup ∧
    (∀ patches' : List FilePatch, patches'.Perm patches →
      (∀ a, a ∈ (getPatchInfo m c patches').1.map Prod.fst ↔
        a ∈ (getPatchInfo m c patches).1.map Prod.fst) ∧
      (∀ q, q ∈ (getPatchInfo m c patches').2 ↔ q ∈ (getPatchInfo m c patches).2)) := by
  obtain ⟨hn1, hn2⟩ :=
    nodup_foldl_patchStep m c patches ([], []) List.nodup_nil List.nodup_nil
  refine ⟨hn1, hn2, fun patches' hperm => ⟨fun a => ?_, fun q => ?_⟩⟩
  · rw [getPatchInfo, getPatchInfo, mem_keys_foldl_patchStep, mem_keys_foldl_patchStep]
    constructor
    · rintro (h | ⟨p, hp, rest⟩)
      · exact Or.inl h
      · exact Or.inr ⟨p, hperm.mem_iff.mp hp, rest⟩
    · rintro (h | ⟨p, hp, rest⟩)
      · exact Or.inl h
      · exact Or.inr ⟨p, hperm.mem_iff.mpr hp, rest⟩
  · rw [getPatchInfo, getPatchInfo, mem_paths_foldl_patchStep, mem_paths_foldl_patchStep]
    constructor
    · rintro (h | ⟨p, hp, rest⟩)
      · exact Or.inl h
      · exact Or.inr ⟨p, hperm.mem_iff.mp hp, rest⟩
    · rintro (h | ⟨p, hp, rest⟩)
      · exact Or.inl h
      · exact Or.inr ⟨p, hperm.mem_iff.mpr hp, rest⟩

/-- C5 witness inputs: a one-segment configuration and two patches that both
match it and share one effective path. -/
def c5Config : Config :=
  ⟨[("s1", { Name := "s1", Chiefs := ["a"], FilePatterns := ["x.go"] })]⟩

/-- C5 witness matcher: a pattern matches exactly the text equal to it. -/
def c5Matcher : Matcher := fun pat text => some (pat == text)

/-- C5 witness patches. -/
def c5P1 : FilePatch := { fromFile := none, toFile := some "x.go", chunks := [] }

/-- C5 witness patches, second element. -/
def c5P2 : FilePatch := { fromFile := some "x.go", toFile := some "x.go", chunks := [] }

/-- C5 witness: `getPatchInfo_perm_invariant_nodup` applied at a concrete
two-patch changeset and its reversal. -/
theorem getPatchInfo_perm_invariant_nodup_witness :
    (([c5P2, c5P1] : List FilePatch).Perm [c5P1, c5P2]) ∧
    ((getPatchInfo c5Matcher c5Config [c5P1, c5P2]).1.map Prod.fst).Nodup ∧
    (getPatchInfo c5Matcher c5Config [c5P1, c5P2]).2.Nodup ∧
    (∀ a, a ∈ (getPatchInfo c5Matcher c5Config [c5P2, c5P1]).1.map Prod.fst ↔
      a ∈ (getPatchInfo c5Matcher c5Config [c5P1, c5P2]).1.map Prod.fst) ∧
    (∀ q, q ∈ (getPatchInfo c5Matcher c5Config [c5P2, c5P1]).2 ↔
      q ∈ (getPatchInfo c5Matcher c5Config [c5P1, c5P2]).2) := by
  have hperm : ([c5P2, c5P1] : List FilePatch).Perm [c5P1, c5P2] :=
    List.Perm.swap c5P1 c5P2 []
  have h := getPatchInfo_perm_invariant_nodup c5Matcher c5Config [c5P1, c5P2]
  exact ⟨hperm, h.1, h.2.1, (h.2.2 [c5P2, c5P1] hperm).1, (h.2.2 [c5P2, c5P1] hperm).2⟩

/-- C6: `submit` fails with `noFilesToSubmit` whenever the changeset yields
zero affected paths — also when it yields zero matching segments, the
zero-paths check coming first — and with the distinct error
`noMatchingSegments` when it yields paths but no segment matches. -/
theorem submit_error_distinction (m : Matcher) (c : Config)
    (patches : List FilePatch) :
    (¬(SubmitError.noFilesToSubmit = SubmitError.noMatchingSegments)) ∧
    ((getPatchInfo m c patches).2 = [] →
      submit m c patches = .error .noFilesToSubmit) ∧
    (¬(getPatchInfo m c patches).2 = [] → (getPatchInfo m c patches).1 = [] →
      submit m c patches = .error .noMatchingSegments) := by
  refine ⟨by decide, fun h2 => ?_, fun h2 h1 => ?_⟩
  · rw [submit]
    simp only [h2]
    rfl
  · rw [submit]
    have hlen2 : ((getPatchInfo m c patches).2.length == 0) = false := by
      simp [List.length_eq_zero, h2]
    have hlen1 : ((getPatchInfo m c patches).1.length == 0) = true := by
      simp [List.length_eq_zero, h1]
    simp only [hlen2, hlen1]
    rfl

/-- C6 witness: `submit_error_distinction` applied to an empty changeset
(zero paths, and zero segments as well: the zero-paths error wins) and to a
one-patch changeset matching no segment of an empty configuration. -/
theorem submit_error_distinction_witness :
    ((getPatchInfo c5Matcher (⟨[]⟩ : Config) ([] : List FilePatch)).2 = []) ∧
    (submit c5Matcher (⟨[]⟩ : Config) ([] : List FilePatch) =
      .error .noFilesToSubmit) ∧
    (¬(getPatchInfo c5Matcher (⟨[]⟩ : Config) [c5P1]).2 = []) ∧
    ((getPatchInfo c5Matcher (⟨[]⟩ : Config) [c5P1]).1 = []) ∧
    (submit c5Matcher (⟨[]⟩ : Config) [c5P1] = .error .noMatchingSegments) := by
  refine ⟨rfl, ?_, by decide, rfl, ?_⟩
  · exact (submit_error_distinction c5Matcher ⟨[]⟩ []).2.1 rfl
  · exact (submit_error_distinction c5Matcher ⟨[]⟩ [c5P1]).2.2 (by decide) rfl

lemma mem_foldl_segmentStep_prChiefs (u : String) :
    ∀ (segs : List ProjectSegment) (st : PRLoopState) (a : String),
      a ∈ (segs.foldl (segmentStep u) st).prChiefs ↔
        a ∈ st.prChiefs ∨ ∃ s ∈ segs, a ∈ s.Chiefs
  | [], st, a => by simp
  | s :: rest, st, a => by
    rw [List.foldl_cons, mem_foldl_segmentStep_prChiefs u rest _ a]
    rw [show (segmentStep u st s).prChiefs = s.Chiefs.foldl appendNew st.prChiefs
      from rfl]
    rw [mem_foldl_appendNew]
    simp only [List.mem_cons]
    constructor
    · rintro ((h | h) | ⟨t, ht, hc⟩)
      · exact Or.inl h
      · exact Or.inr ⟨s, Or.inl rfl, h⟩
      · exact Or.inr ⟨t, Or.inr ht, hc⟩
    · rintro (h | ⟨t, ht, hc⟩)
      · exact Or.inl (Or.inl h)
      · rcases ht with rfl | htr
        · exact Or.inl (Or.inr hc)
        · exact Or.inr ⟨t, htr, hc⟩

lemma segmentLoop_prChiefs_len (u : String) (segments : ProjectSegments)
    (hchief : ∃ kv ∈ segments, ¬kv.2.Chiefs = []) :
    (((segmentLoop u (segments.map Prod.snd)).prChiefs.length == 0) = false) := by
  rcases hchief with ⟨kv, hkv, hne⟩
  rcases List.exists_mem_of_ne_nil kv.2.Chiefs hne with ⟨a, ha⟩
  have hmem : a ∈ (segmentLoop u (segments.map Prod.snd)).prChiefs := by
    rw [segmentLoop, mem_foldl_segmentStep_prChiefs]
    exact Or.inr ⟨kv.2, List.mem_map_of_mem Prod.snd hkv, ha⟩
  have hne2 : ¬(segmentLoop u (segments.map Prod.snd)).prChiefs = [] :=
    List.ne_nil_of_mem hmem
  simp [List.length_eq_zero, hne2]

lemma segmentLoop_repoURL_empty (u : String) (segs : List ProjectSegment)
    (h : ∀ s ∈ segs, goHasPre u s.Repository = false) :
    (segmentLoop u segs).repoURL = "" := by
  rw [segmentLoop_repoURL]
  unfold firstOwnedRepo
  have hfind : segs.find? (fun s => !(s.Repository == "") && goHasPre u s.Repository)
      = none :=
    List.find?_eq_none.mpr (fun s hs => by simp [h s hs])
  rw [hfind]
  rfl

/-- C7: with a non-empty resolved segment set carrying at least one chief
(the driver's preconditions) and a pull-request URL whose parsed path does
not decompose into exactly five "/"-fields `["", owner, repo, "pull", n]`
with the literal "pull" marker, non-empty owner and repo, and an
integer-parseable final field, `HandlePullRequest` returns the
"Invalid pull request URL" error and issues no remote tracker call. -/
theorem handlePullRequest_invalid_url (parsePath : String → Option String)
    (atoi : String → Option Int) (client : TrackerCall → Bool) (u : String)
    (segments : ProjectSegments) (close : Bool) (path : String)
    (hseg : ¬segments = [])
    (hchief : ∃ kv ∈ segments, ¬kv.2.Chiefs = [])
    (hpath : parsePath u = some path)
    (hbad : ¬(goSplit path '/').length = 5 ∨
      ¬(goSplit path '/').getD 3 "" = "pull" ∨
      (goSplit path '/').getD 1 "" = "" ∨
      (goSplit path '/').getD 2 "" = "" ∨
      atoi ((goSplit path '/').getD 4 "") = none) :
    handlePullRequest parsePath atoi client u segments close =
      ([], .error .invalidPullRequestURL) := by
  have hlen : ((segments.length == 0) = false) := by
    simp [List.length_eq_zero, hseg]
  have hch := segmentLoop_prChiefs_len u segments hchief
  rw [handlePullRequest]
  simp only [hlen, hpath, hch, Bool.false_eq_true, if_false]
  by_cases hcond : ((goSplit path '/').length != 5 ||
      (goSplit path '/').getD 3 "" != "pull" ||
      (goSplit path '/').getD 1 "" == "" ||
      (goSplit path '/').getD 2 "" == "") = true
  · simp only [hcond, if_true]
  · rw [Bool.not_eq_true] at hcond
    simp only [Bool.or_eq_false_iff, bne_eq_false_iff_eq, beq_eq_false_iff_ne,
      ne_eq] at hcond
    obtain ⟨⟨⟨h5, hpull⟩, h1⟩, h2⟩ := hcond
    have hatoi : atoi ((goSplit path '/').getD 4 "") = none := by
      rcases hbad with h | h | h | h | h
      · exact absurd h5 h
      · exact absurd hpull h
      · exact absurd h h1
      · exact absurd h h2
      · exact h
    simp only [h5, hpull, hatoi]
    simp [h1, h2]

/-- C7 witness inputs: a URL-path with a wrong "pull" marker. -/
def c7ParsePath : String → Option String := fun _ => some "/acme/widgets/pulls/42"

/-- C7 witness `strconv.Atoi` stand-in. -/
def c7Atoi : String → Option Int := fun s => if s == "42" then some 42 else none

/-- C7 witness segment list. -/
def c7Segments : ProjectSegments :=
  [("s", { Name := "s", Chiefs := ["alice"], Repository := "https://x/r" })]

/-- C7 witness: `handlePullRequest_invalid_url` applied at a concrete URL
whose fourth path field is "pulls" instead of "pull". -/
theorem handlePullRequest_invalid_url_witness :
    (¬c7Segments = []) ∧
    (∃ kv ∈ c7Segments, ¬kv.2.Chiefs = []) ∧
    (c7ParsePath "https://x/acme/widgets/pulls/42" = some "/acme/widgets/pulls/42") ∧
    (¬(goSplit "/acme/widgets/pulls/42" '/').getD 3 "" = "pull") ∧
    (handlePullRequest c7ParsePath c7Atoi (fun _ => true)
        "https://x/acme/widgets/pulls/42" c7Segments false =
      ([], .error .invalidPullRequestURL)) := by
  refine ⟨by decide, ⟨("s", { Name := "s", Chiefs := ["alice"], Repository := "https://x/r" }),
    by decide, by decide⟩, rfl, by decide, ?_⟩
  exact handlePullRequest_invalid_url c7ParsePath c7Atoi (fun _ => true)
    "https://x/acme/widgets/pulls/42" c7Segments false "/acme/widgets/pulls/42"
    (by decide) ⟨("s", { Name := "s", Chiefs := ["alice"], Repository := "https://x/r" }),
      by decide, by decide⟩ rfl (Or.inr (Or.inl (by decide)))

lemma sortSegments_perm (segs : List ProjectSegment) :
    (sortSegments segs).Perm segs :=
  List.mergeSort_perm segs _

lemma sortSegments_sorted (segs : List ProjectSegment) :
    (sortSegments segs).Pairwise
      (fun a b => decide (b.Priority ≤ a.Priority) = true) := by
  rw [sortSegments]
  exact List.sorted_mergeSort
    (fun a b c hab hbc => by
      simp only [decide_eq_true_eq] at *
      exact le_trans hbc hab)
    (fun a b => by
      simp only [Bool.or_eq_true, decide_eq_true_eq]
      exact le_total b.Priority a.Priority)
    segs

lemma sortSegments_head_max (segs : List ProjectSegment) (s : ProjectSegment)
    (hs : s ∈ segs) :
    s.Priority ≤ ((sortSegments segs).headD {}).Priority := by
  have hmem : s ∈ sortSegments segs := (sortSegments_perm segs).mem_iff.mpr hs
  cases hsort : sortSegments segs with
  | nil => rw [hsort] at hmem; cases hmem
  | cons hd tl =>
    rw [hsort] at hmem
    have hpair := sortSegments_sorted segs
    rw [hsort, List.pairwise_cons] at hpair
    rw [List.headD_cons]
    rcases List.mem_cons.mp hmem with rfl | htl
    · exact le_refl _
    · exact of_decide_eq_true (hpair.1 s htl)

lemma sortSegments_head_mem (segs : List ProjectSegment) (h : ¬segs = []) :
    (sortSegments segs).headD {} ∈ segs := by
  cases hsort : sortSegments segs with
  | nil =>
    exact absurd (List.Perm.nil_eq (hsort ▸ sortSegments_perm segs)).symm h
  | cons hd tl =>
    rw [List.headD_cons]
    exact (sortSegments_perm segs).mem_iff.mp (hsort ▸ List.mem_cons_self hd tl)

/-- The `{owner}` field of the split pull-request URL path
(chiefr.go line 127). -/
def prUser (path : String) : String := (goSplit path '/').getD 1 ""

/-- The `{repo}` field of the split pull-request URL path
(chiefr.go line 128). -/
def prRepo (path : String) : String := (goSplit path '/').getD 2 ""

/-- `os[0]` of `HandlePullRequest` (chiefr.go line 146): the head of the
priority-sorted resolved segment list. -/
def topSegment (segments : ProjectSegments) : ProjectSegment :=
  (sortSegments (segments.map Prod.snd)).headD {}

/-- The redirect-comment call of chiefr.go lines 144-156. -/
def unownedCommentCall (path : String) (n : Int) (segments : ProjectSegments) :
    TrackerCall :=
  TrackerCall.createComment (prUser path) (prRepo path) n
    (unownedComment (topSegment segments).Repository)

/-- The close-edit call of chiefr.go lines 160-169. -/
def closeEditCall (path : String) (n : Int) : TrackerCall :=
  TrackerCall.editState (prUser path) (prRepo path) n "closed"

/-- C8: under the driver's preconditions (non-empty resolved set with a
chief, well-formed URL), when no resolved segment's repository prefixes the
pull-request URL and `close` is true, `HandlePullRequest` issues exactly one
comment call whose body names the repository of `os[0]` — a resolved segment
of maximal priority — and, only if that comment call succeeds, exactly one
edit call setting the state to "closed"; if the comment call fails the error
returns immediately and the close edit is never attempted. -/
theorem handlePullRequest_unowned_close_sequence
    (parsePath : String → Option String) (atoi : String → Option Int)
    (client : TrackerCall → Bool) (u : String) (segments : ProjectSegments)
    (path : String) (n : Int)
    (hseg : ¬segments = [])
    (hchief : ∃ kv ∈ segments, ¬kv.2.Chiefs = [])
    (hpath : parsePath u = some path)
    (h5 : (goSplit path '/').length = 5)
    (hpull : (goSplit path '/').getD 3 "" = "pull")
    (h1 : ¬(goSplit path '/').getD 1 "" = "")
    (h2 : ¬(goSplit path '/').getD 2 "" = "")
    (hatoi : atoi ((goSplit path '/').getD 4 "") = some n)
    (hnomatch : ∀ kv ∈ segments, goHasPre u kv.2.Repository = false) :
    (∃ kv ∈ segments, kv.2 = topSegment segments) ∧
    (∀ kv ∈ segments, kv.2.Priority ≤ (topSegment segments).Priority) ∧
    (client (unownedCommentCall path n segments) = false →
      handlePullRequest parsePath atoi client u segments true =
        ([unownedCommentCall path n segments], .error .createCommentFailed)) ∧
    (client (unownedCommentCall path n segments) = true →
      client (closeEditCall path n) = false →
      handlePullRequest parsePath atoi client u segments true =
        ([unownedCommentCall path n segments, closeEditCall path n],
          .error .closePullRequestFailed)) ∧
    (client (unownedCommentCall path n segments) = true →
      client (closeEditCall path n) = true →
      handlePullRequest parsePath atoi client u segments true =
        ([unownedCommentCall path n segments, closeEditCall path n], .ok ())) := by
  have hmapne : ¬segments.map Prod.snd = [] := by
    simpa [List.map_eq_nil] using hseg
  have htop : topSegment segments ∈ segments.map Prod.snd :=
    sortSegments_head_mem (segments.map Prod.snd) hmapne
  have hA : ∃ kv ∈ segments, kv.2 = topSegment segments := by
    rcases List.mem_map.mp htop with ⟨kv, hkv, hsnd⟩
    exact ⟨kv, hkv, hsnd⟩
  have hB : ∀ kv ∈ segments, kv.2.Priority ≤ (topSegment segments).Priority :=
    fun kv hkv =>
      sortSegments_head_max (segments.map Prod.snd) kv.2
        (List.mem_map_of_mem Prod.snd hkv)
  have hlen : ((segments.length == 0) = false) := by
    simp [List.length_eq_zero, hseg]
  have hch := segmentLoop_prChiefs_len u segments hchief
  have hrepo : (segmentLoop u (segments.map Prod.snd)).repoURL = "" := by
    apply segmentLoop_repoURL_empty
    intro s hsmem
    rcases List.mem_map.mp hsmem with ⟨kv, hkv, rfl⟩
    exact hnomatch kv hkv
  have hc1 : (((goSplit path '/').length != 5) = false) := by
    rw [bne_eq_false_iff_eq]
    exact h5
  have hc2 : (((goSplit path '/').getD 3 "" != "pull") = false) := by
    rw [bne_eq_false_iff_eq]
    exact hpull
  have hc3 : (((goSplit path '/').getD 1 "" == "") = false) := by
    rw [beq_eq_false_iff_ne]
    exact h1
  have hc4 : (((goSplit path '/').getD 2 "" == "") = false) := by
    rw [beq_eq_false_iff_ne]
    exact h2
  have heval : handlePullRequest parsePath atoi client u segments true =
      (if client (unownedCommentCall path n segments) then
        (if client (closeEditCall path n) then
          ([unownedCommentCall path n segments, closeEditCall path n], .ok ())
        else ([unownedCommentCall path n segments, closeEditCall path n],
          .error .closePullRequestFailed))
      else ([unownedCommentCall path n segments], .error .createCommentFailed)) := by
    rw [handlePullRequest]
    simp only [hlen, Bool.false_eq_true, if_false, hpath]
    simp only [hch, hc1, hc2, hc3, hc4, Bool.or_self, Bool.or_false, hatoi,
      Bool.false_eq_true, if_false, hrepo]
    simp only [show (("" : String) == "") = true from rfl, if_true,
      Bool.not_true, Bool.false_eq_true, if_false]
    rfl
  refine ⟨hA, hB, fun hcc => ?_, fun hcc hce => ?_, fun hcc hce => ?_⟩
  · rw [heval, if_neg (by rw [hcc]; exact Bool.false_ne_true)]
  · rw [heval, if_pos hcc, if_neg (by rw [hce]; exact Bool.false_ne_true)]
  · rw [heval, if_pos hcc, if_pos hce]

/-- C8 witness inputs: one resolved segment whose repository does not prefix
the pull-request URL. -/
def c8Segments : ProjectSegments :=
  [("s", { Name := "s", Chiefs := ["alice"], Repository := "https://other/r",
           Priority := 2 })]

/-- C8 witness URL-path parser stand-in. -/
def c8ParsePath : String → Option String := fun _ => some "/acme/widgets/pull/42"

/-- C8 witness: `handlePullRequest_unowned_close_sequence` applied at a
concrete unowned pull request with an always-succeeding client: the comment
call is issued and then the close edit, and the run succeeds. -/
theorem handlePullRequest_unowned_close_sequence_witness :
    (¬c8Segments = []) ∧
    (c8ParsePath "https://github.com/acme/widgets/pull/42" =
      some "/acme/widgets/pull/42") ∧
    ((goSplit "/acme/widgets/pull/42" '/').length = 5) ∧
    (∀ kv ∈ c8Segments,
      goHasPre "https://github.com/acme/widgets/pull/42" kv.2.Repository = false) ∧
    (handlePullRequest c8ParsePath c7Atoi (fun _ => true)
        "https://github.com/acme/widgets/pull/42" c8Segments true =
      ([unownedCommentCall "/acme/widgets/pull/42" 42 c8Segments,
        closeEditCall "/acme/widgets/pull/42" 42], .ok ())) := by
  refine ⟨by decide, rfl, by decide, by decide, ?_⟩
  exact (handlePullRequest_unowned_close_sequence c8ParsePath c7Atoi
    (fun _ => true) "https://github.com/acme/widgets/pull/42" c8Segments
    "/acme/widgets/pull/42" 42 (by decide)
    ⟨("s", { Name := "s", Chiefs := ["alice"], Repository := "https://other/r",
             Priority := 2 }), by decide, by decide⟩
    rfl (by decide) (by decide) (by decide) (by decide) (by decide)
    (by decide)).2.2.2.2 rfl rfl

lemma initMaintainers_ok_characterization :
    ∀ (sections : List (String × ProjectSegment)) (cfg : Config),
      initMaintainers sections = .ok cfg →
      cfg.Segments = (sections.filter (fun ns => ns.1 != "DEFAULT")).map
        (fun ns => (ns.1, { ns.2 with
          Name := ns.1,
          ContentPatterns := ns.2.ContentPatterns.map wrapContentPattern }))
  | [], cfg, h => by
    cases h
    rfl
  | (n, ps) :: rest, cfg, h => by
    rw [initMaintainers] at h
    by_cases hdef : (n == "DEFAULT") = true
    · rw [if_pos hdef] at h
      rw [@List.filter_cons_of_neg _ (fun ns => ns.1 != "DEFAULT") (n, ps) rest (by simp [bne, hdef])]
      exact initMaintainers_ok_characterization rest cfg h
    · rw [Bool.not_eq_true] at hdef
      simp only [hdef, Bool.false_eq_true, if_false] at h
      rw [@List.filter_cons_of_pos _ (fun ns => ns.1 != "DEFAULT") (n, ps) rest (by simp [bne, hdef])]
      by_cases hch : ps.Chiefs.isEmpty = true
      · rw [if_pos hch] at h
        cases h
      · rw [Bool.not_eq_true] at hch
        simp only [hch, Bool.false_eq_true, if_false] at h
        cases hrest : initMaintainers rest with
        | error e => rw [hrest] at h; cases h
        | ok c =>
          rw [hrest] at h
          cases h
          rw [List.map_cons]
          rw [initMaintainers_ok_characterization rest c hrest]

/-- C9: at configuration load every `ContentPatterns` entry `P` is rewritten
to `(?m).*P.*` (shown by the full characterization of a successful
`initMaintainers` run), and — under the spec-modelled semantics of the Go
regexp engine on such wrapped literal patterns — a segment with content
pattern "TODO" and no file patterns is concerned by every patch whose
concatenated chunk text has a line containing "TODO", whatever the file
path. -/
theorem contentPatterns_wrapped_multiline (sections : List (String × ProjectSegment))
    (cfg : Config) (s : ProjectSegment) (p : FilePatch) (path : String)
    (hok : initMaintainers sections = .ok cfg)
    (hFP : s.FilePatterns = [])
    (hCP : s.ContentPatterns = [wrapContentPattern "TODO"])
    (hCEP : s.ContentExcludePatterns = [])
    (hline : ∃ line ∈ goSplit (diffContent p) '\n',
      occursIn "TODO".data line.data = true) :
    cfg.Segments = (sections.filter (fun ns => ns.1 != "DEFAULT")).map
      (fun ns => (ns.1, { ns.2 with
        Name := ns.1,
        ContentPatterns := ns.2.ContentPatterns.map wrapContentPattern })) ∧
    s.IsConcerned specWrappedMatcher p path = true := by
  refine ⟨initMaintainers_ok_characterization sections cfg hok, ?_⟩
  rw [ProjectSegment.IsConcerned, ProjectSegment.IsFileNameMatch, hFP, hCP, hCEP]
  rw [show patternLoop specWrappedMatcher s.FileExcludePatterns path [] = false
    from rfl]
  simp only [Bool.false_eq_true, if_false]
  rw [patternLoop_spec]
  refine ⟨⟨wrapContentPattern "TODO", List.mem_singleton_self _, ?_⟩,
    fun e he => absurd he (List.not_mem_nil e)⟩
  have hm : specWrappedMatcher (wrapContentPattern "TODO") (diffContent p) =
      some ((goSplit (diffContent p) '\n').any
        (fun line => occursIn "TODO".data line.data)) := rfl
  rw [hm]
  congr 1
  rw [List.any_eq_true]
  exact hline

/-- C9 witness input: the raw configuration section before wrapping. -/
def c9Sections : List (String × ProjectSegment) :=
  [("seg", { Name := "", Chiefs := ["a"], ContentPatterns := ["TODO"] })]

/-- C9 witness input: the loaded configuration. -/
def c9Config : Config :=
  ⟨[("seg", { Name := "seg", Chiefs := ["a"],
              ContentPatterns := ["(?m).*TODO.*"] })]⟩

/-- C9 witness input segment: content pattern "TODO" as wrapped at load
time, no file patterns. -/
def c9Seg : ProjectSegment :=
  { Name := "seg", Chiefs := ["a"], ContentPatterns := [wrapContentPattern "TODO"] }

/-- C9 witness input patch: adds a line containing "TODO". -/
def c9Patch : FilePatch :=
  { fromFile := none, toFile := some "notes.txt",
    chunks := [⟨ChunkType.add, "x\nsome TODO here\ny"⟩] }

/-- C9 witness: `contentPatterns_wrapped_multiline` applied at a concrete
section list and patch. -/
theorem contentPatterns_wrapped_multiline_witness :
    (initMaintainers c9Sections = .ok c9Config) ∧
    (c9Seg.FilePatterns = []) ∧
    (∃ line ∈ goSplit (diffContent c9Patch) '\n',
      occursIn "TODO".data line.data = true) ∧
    (c9Config.Segments = (c9Sections.filter (fun ns => ns.1 != "DEFAULT")).map
      (fun ns => (ns.1, { ns.2 with
        Name := ns.1,
        ContentPatterns := ns.2.ContentPatterns.map wrapContentPattern })) ∧
    c9Seg.IsConcerned specWrappedMatcher c9Patch "notes.txt" = true) := by
  refine ⟨rfl, rfl, ⟨"some TODO here", by decide, by decide⟩, ?_⟩
  exact contentPatterns_wrapped_multiline c9Sections c9Config c9Seg c9Patch
    "notes.txt" rfl rfl rfl rfl ⟨"some TODO here", by decide, by decide⟩

end Chiefr
